import Mathlib

/-!
Verification of the audio mixing console core.

This development is a shallow embedding of the core state and operations of
the browser audio-mixing application:

* drum-machine sequencer state and operations
  (src/components/drum-machine/drum-machine.component.ts),
* deck / mixer / routing / scratch state and operations
  (src/components/video-editor/app.component.ts).

Machine numbers (JS `number` values produced by the arithmetic the claims
are about) are embedded as `ℚ` where the code only uses field operations,
and as `ℝ` where the code uses `Math.cos`, `Math.pow`, `Math.log` or
`Math.PI`.  Audio-graph side effects (Web Audio node connections) are
embedded as explicit fields of the state: the per-deck drum-input tap is
modelled by the upstream source it is connected to (the shared silent dummy
stream or the sequencer stream) together with the value of its gain
parameter.  The embedding assumes the audio graph has been built
(`initAudioContext` has run), which is the precondition under which the
routing code paths execute their node operations.
-/

/-! ## Data model: tracks and decks (app.component.ts) -/

structure Track where
  title : String
  artist : String
  albumArtUrl : String
  audioSrc : String
  videoSrc : Option String
  deriving DecidableEq, Repr

structure DeckState where
  track : Track
  isPlaying : Bool
  progress : ℚ
  duration : ℚ
  playbackRate : ℚ
  filterFreq : ℚ
  loop : Bool
  gain : ℚ
  eqHigh : ℚ
  eqMid : ℚ
  eqLow : ℚ
  drumInputVolume : ℚ
  wasPlayingBeforeScratch : Bool
  deriving DecidableEq, Repr

/-- The `initialDeckState` constant of app.component.ts. -/
def initialDeckState : DeckState :=
  { track :=
      { title := "NO SIGNAL"
        artist := "Load a track into deck"
        albumArtUrl := "https://picsum.photos/seed/placeholder/500/500"
        audioSrc := ""
        videoSrc := none }
    isPlaying := false
    progress := 0
    duration := 0
    playbackRate := 1
    filterFreq := 20000
    loop := false
    gain := 50
    eqHigh := 50
    eqMid := 50
    eqLow := 50
    drumInputVolume := 0
    wasPlayingBeforeScratch := false }

inductive DeckId where
  | A
  | B
  deriving DecidableEq, Repr

inductive MainViewMode where
  | player
  | dj
  | drum
  | imageEditor
  | videoEditor
  deriving DecidableEq, Repr

/-- Upstream source feeding a per-deck drum-input tap: either the shared
silent dummy stream or the routed sequencer stream.  Models which
MediaStream `drumInputSourceA`/`drumInputSourceB` was created from. -/
inductive DrumSource where
  | silentDummy
  | drumStream
  deriving DecidableEq, Repr

/-- The application state relevant to deck transport, playlist and
drum routing in app.component.ts.  `drumInputGainA`/`drumInputGainB` model
the value of the corresponding GainNode gain parameter. -/
structure AppState where
  mainViewMode : MainViewMode
  deckA : DeckState
  deckB : DeckState
  playlist : List Track
  currentTrackIndex : Int
  crossfade : ℚ
  isDrumRoutedA : Bool
  isDrumRoutedB : Bool
  drumSourceA : DrumSource
  drumSourceB : DrumSource
  drumInputGainA : ℚ
  drumInputGainB : ℚ
  deriving DecidableEq, Repr

/-- Initial signal values of AppComponent. -/
def initAppState : AppState :=
  { mainViewMode := MainViewMode.player
    deckA := initialDeckState
    deckB := initialDeckState
    playlist := []
    currentTrackIndex := -1
    crossfade := 0
    isDrumRoutedA := false
    isDrumRoutedB := false
    drumSourceA := DrumSource.silentDummy
    drumSourceB := DrumSource.silentDummy
    drumInputGainA := 0
    drumInputGainB := 0 }

def AppState.deck (s : AppState) (d : DeckId) : DeckState :=
  match d with
  | DeckId.A => s.deckA
  | DeckId.B => s.deckB

def AppState.setDeck (s : AppState) (d : DeckId) (deck : DeckState) : AppState :=
  match d with
  | DeckId.A => { s with deckA := deck }
  | DeckId.B => { s with deckB := deck }

def AppState.drumGain (s : AppState) (d : DeckId) : ℚ :=
  match d with
  | DeckId.A => s.drumInputGainA
  | DeckId.B => s.drumInputGainB

def AppState.drumSource (s : AppState) (d : DeckId) : DrumSource :=
  match d with
  | DeckId.A => s.drumSourceA
  | DeckId.B => s.drumSourceB

def AppState.isDrumRouted (s : AppState) (d : DeckId) : Bool :=
  match d with
  | DeckId.A => s.isDrumRoutedA
  | DeckId.B => s.isDrumRoutedB

/-! ## Per-deck audio parameter mapping (setupAudioEffects, app.component.ts)

The reactive effects apply the deck control values to the live nodes:
`trimNode.gain = deck.gain / 50`,
`eqXNode.gain = (deck.eqX - 50) * (12 / 50)` (dB),
`drumInputGain.gain = deck.drumInputVolume / 100`. -/

structure DeckAudioParams where
  trimGain : ℚ
  eqHighGainDb : ℚ
  eqMidGainDb : ℚ
  eqLowGainDb : ℚ
  drumInputGain : ℚ
  deriving DecidableEq, Repr

def deckAudioParams (d : DeckState) : DeckAudioParams :=
  { trimGain := d.gain / 50
    eqHighGainDb := (d.eqHigh - 50) * (12 / 50)
    eqMidGainDb := (d.eqMid - 50) * (12 / 50)
    eqLowGainDb := (d.eqLow - 50) * (12 / 50)
    drumInputGain := d.drumInputVolume / 100 }

/-! ## Playlist transport (app.component.ts)

JS `%` is the truncated remainder, embedded as `Int.tmod`. -/

/-- `playNext()` of app.component.ts. -/
def playNext (s : AppState) : AppState :=
  { s with currentTrackIndex := (s.currentTrackIndex + 1).tmod (s.playlist.length : Int) }

/-- `onEnded(deckId)` of app.component.ts.  The media-element write
`player.currentTime = 0` accompanies the `progress := 0` state update. -/
def onEnded (deckId : DeckId) (s : AppState) : AppState :=
  if s.mainViewMode = MainViewMode.player ∧ deckId = DeckId.A ∧ 0 < s.playlist.length ∧
      s.currentTrackIndex < (s.playlist.length : Int) - 1 then
    playNext s
  else
    let d := s.deck deckId
    if d.loop = false then
      s.setDeck deckId { d with isPlaying := false, progress := 0 }
    else
      s

/-! ## Drum machine routing (app.component.ts) -/

/-- `unrouteDrumMachine(deckId)` of app.component.ts: reconnects the
drum-input tap to the shared silent dummy stream, zeroes the tap gain,
clears the routed flag and resets the deck drum-input volume control. -/
def unrouteDrumMachine (deckId : DeckId) (s : AppState) : AppState :=
  match deckId with
  | DeckId.A =>
      { s with drumSourceA := DrumSource.silentDummy
               drumInputGainA := 0
               isDrumRoutedA := false
               deckA := { s.deckA with drumInputVolume := 0 } }
  | DeckId.B =>
      { s with drumSourceB := DrumSource.silentDummy
               drumInputGainB := 0
               isDrumRoutedB := false
               deckB := { s.deckB with drumInputVolume := 0 } }

/-- `handleDrumRoute(event)` of app.component.ts (with the routed stream
present and the audio graph built).  Both decks are first unrouted; then,
for a non-null target deck, the tap is reconnected to the sequencer stream,
the tap gain is set from the current deck drum-input volume, the routed
flag is set and the deck track playback is paused. -/
def handleDrumRoute (deckId : Option DeckId) (s : AppState) : AppState :=
  let s2 := unrouteDrumMachine DeckId.B (unrouteDrumMachine DeckId.A s)
  match deckId with
  | none => { s2 with isDrumRoutedA := false, isDrumRoutedB := false }
  | some DeckId.A =>
      { s2 with drumSourceA := DrumSource.drumStream
                drumInputGainA := s2.deckA.drumInputVolume / 100
                isDrumRoutedA := true
                deckA := { s2.deckA with isPlaying := false } }
  | some DeckId.B =>
      { s2 with drumSourceB := DrumSource.drumStream
                drumInputGainB := s2.deckB.drumInputVolume / 100
                isDrumRoutedB := true
                deckB := { s2.deckB with isPlaying := false } }

/-- States of AppComponent reachable by the operations that write the
drum-routing state.  `handleDrumRoute` and `unrouteDrumMachine` are the
only writers of the routed flags in the source; every other operation of
the component is covered by the `frame` step, which allows arbitrary
changes that leave both routed flags untouched. -/
inductive Reachable : AppState → Prop where
  | init : Reachable initAppState
  | route (e : Option DeckId) {s : AppState} :
      Reachable s → Reachable (handleDrumRoute e s)
  | unroute (d : DeckId) {s : AppState} :
      Reachable s → Reachable (unrouteDrumMachine d s)
  | frame {s s' : AppState} :
      Reachable s → s'.isDrumRoutedA = s.isDrumRoutedA →
      s'.isDrumRoutedB = s.isDrumRoutedB → Reachable s'

/-! ## Drum machine sequencer (drum-machine.component.ts, samples.ts) -/

structure Pad where
  name : String
  key : String
  sampleKey : String
  deriving DecidableEq, Repr

structure Kit where
  name : String
  pads : List Pad
  deriving DecidableEq, Repr

/-- The single kit of samples.ts. -/
def the808Kit : Kit :=
  { name := "808 Classic"
    pads :=
      [ { name := "Kick", key := "1", sampleKey := "kick808" },
        { name := "Kick 2", key := "2", sampleKey := "kick909" },
        { name := "Snare", key := "3", sampleKey := "snare808" },
        { name := "Clap", key := "4", sampleKey := "clap808" },
        { name := "Snare 2", key := "q", sampleKey := "snare909" },
        { name := "Perc 1", key := "w", sampleKey := "perc1" },
        { name := "CHH", key := "e", sampleKey := "hihat808_closed" },
        { name := "Perc 2", key := "r", sampleKey := "perc2" },
        { name := "OHH", key := "a", sampleKey := "hihat808_open" },
        { name := "Perc 3", key := "s", sampleKey := "perc3" },
        { name := "Tom L", key := "d", sampleKey := "tom_low" },
        { name := "Perc 4", key := "f", sampleKey := "perc4" },
        { name := "Tom M", key := "z", sampleKey := "tom_mid" },
        { name := "Tom H", key := "x", sampleKey := "tom_high" },
        { name := "Crash", key := "c", sampleKey := "crash" },
        { name := "Ride", key := "v", sampleKey := "ride" } ] }

def kits : List Kit := [the808Kit]

/-- The step mapping.  A JS `Map<string, boolean[]>` is embedded as an
association list with unique keys; `seqSet` updates in place or appends,
`seqDelete` removes an entry, `seqGet` looks an entry up. -/
abbrev StepSequence := List (String × List Bool)

def seqGet (m : StepSequence) (k : String) : Option (List Bool) :=
  match m with
  | [] => none
  | (k0, v) :: rest => if k0 = k then some v else seqGet rest k

def seqDelete (m : StepSequence) (k : String) : StepSequence :=
  match m with
  | [] => []
  | (k0, v) :: rest => if k0 = k then rest else (k0, v) :: seqDelete rest k

def seqSet (m : StepSequence) (k : String) (v : List Bool) : StepSequence :=
  match m with
  | [] => [(k, v)]
  | (k0, v0) :: rest => if k0 = k then (k0, v) :: rest else (k0, v0) :: seqSet rest k v

/-- The drum-machine component state (sound loading and the timer handle
are platform side effects and are not part of the state). -/
structure DrumMachineState where
  activeKit : Kit
  pads : List Pad
  bpm : ℚ
  isPlaying : Bool
  currentStep : Int
  sequence : StepSequence
  deriving DecidableEq, Repr

/-- `createEmptySequence()` of drum-machine.component.ts: one all-false
16-step array per pad, keyed by the pad sample key. -/
def createEmptySequence (pads : List Pad) : StepSequence :=
  pads.foldl (fun m pad => seqSet m pad.sampleKey (List.replicate 16 false)) []

/-- Initial drum-machine state (constructor of the component). -/
def initDrumState : DrumMachineState :=
  { activeKit := the808Kit
    pads := the808Kit.pads
    bpm := 120
    isPlaying := false
    currentStep := -1
    sequence := createEmptySequence the808Kit.pads }

/-- The step interval computed inside `scheduleNextStep`:
`secondsPerBeat = 60.0 / bpm; secondsPerStep = secondsPerBeat / 4`. -/
def secondsPerStep (bpm : ℚ) : ℚ :=
  (60 / bpm) / 4

/-- One iteration of `scheduleNextStep()` of drum-machine.component.ts:
when the sequencer is playing it returns the delay (in seconds) after
which the next tick is scheduled, together with the state produced by the
timer callback, which advances the step index modulo 16 (JS `%`, i.e.
truncated remainder) before rescheduling.  Sample playback and the
transient pad highlight of `playStep` are side effects. -/
def scheduleNextStep (s : DrumMachineState) : Option (ℚ × DrumMachineState) :=
  if s.isPlaying = false then none
  else
    some (secondsPerStep s.bpm,
      { s with currentStep := (s.currentStep + 1).tmod 16 })

/-- `changeKit(kitName)` of drum-machine.component.ts: for a known kit
name it stops playback, replaces the active kit and pads and rebuilds an
all-false step mapping keyed by the new pads; otherwise it is a no-op
(`stop()` also cancels the pending timer, a side effect). -/
def changeKit (kitName : String) (s : DrumMachineState) : DrumMachineState :=
  match kits.find? (fun k => k.name == kitName) with
  | none => s
  | some kit =>
      { s with isPlaying := false
               activeKit := kit
               pads := kit.pads
               sequence := createEmptySequence kit.pads }

/-- `assignSampleToPad` of drum-machine.component.ts, for a selected pad
index (loading the sample audio is a side effect): the pad receives the
new sample key, and the step array stored under the old key, when present,
is migrated: the old key is deleted and the array is stored under the new
key. -/
def assignSampleToPad (pads : List Pad) (sequence : StepSequence)
    (padIndex : Nat) (sampleKey : String) : List Pad × StepSequence :=
  match pads[padIndex]? with
  | none => (pads, sequence)
  | some pad =>
      let oldSampleKey := pad.sampleKey
      let newPads := pads.set padIndex { pad with sampleKey := sampleKey }
      let newSequence :=
        match seqGet sequence oldSampleKey with
        | some padSequence => seqSet (seqDelete sequence oldSampleKey) sampleKey padSequence
        | none => sequence
      (newPads, newSequence)

/-! ## Concrete demonstration inputs used by witnesses and counterexamples -/

def kickSteps : List Bool :=
  true :: List.replicate 15 false

/-- Two pads sharing the sample key "kickA" (reachable through repeated
`assignSampleToPad` calls). -/
def sharedKeyPads : List Pad :=
  [ { name := "Pad 1", key := "1", sampleKey := "kickA" },
    { name := "Pad 2", key := "2", sampleKey := "kickA" } ]

def sharedKeySeq : StepSequence :=
  [("kickA", kickSteps)]

def demoTrack : Track :=
  { title := "Demo"
    artist := "Artist"
    albumArtUrl := ""
    audioSrc := "song.mp3"
    videoSrc := none }

/-! ## Real-valued control mappings (app.component.ts) -/

noncomputable section

/-- Crossfader gain for deck A (crossfade effect in `setupAudioEffects`):
`x = (c + 1) / 2; gainA = Math.cos(x * 0.5 * Math.PI)`. -/
def gainA (c : ℝ) : ℝ :=
  Real.cos ((c + 1) / 2 * 0.5 * Real.pi)

/-- Crossfader gain for deck B: `gainB = Math.cos((1 - x) * 0.5 * Math.PI)`
with `x = (c + 1) / 2`. -/
def gainB (c : ℝ) : ℝ :=
  Real.cos ((1 - (c + 1) / 2) * 0.5 * Real.pi)

/-- The frequency computed by `onFilterChange` from a normalized slider
value: `freq = minFreq * Math.pow(maxFreq / minFreq, value)` with
`minFreq = 20`, `maxFreq = 20000`. -/
def normalizedToFrequency (value : ℝ) : ℝ :=
  20 * (20000 / 20) ^ value

/-- `getNormalizedFilterValue(freq)` of app.component.ts. -/
def getNormalizedFilterValue (freq : ℝ) : ℝ :=
  if freq ≤ 20 then 0
  else if freq ≥ 20000 then 1
  else (Real.log freq - Real.log 20) / (Real.log 20000 - Real.log 20)

/-- `SCRATCH_SENSITIVITY` constant of app.component.ts. -/
def SCRATCH_SENSITIVITY : ℝ := 2.5

/-- The wrap-around normalization applied to the angular delta in
`onScratch`: `if (deltaAngle > Math.PI) deltaAngle -= 2 * Math.PI;
if (deltaAngle < -Math.PI) deltaAngle += 2 * Math.PI;`. -/
def normalizeDeltaAngle (d : ℝ) : ℝ :=
  if d > Real.pi then d - 2 * Real.pi
  else if d < -Real.pi then d + 2 * Real.pi
  else d

/-- Result of one `processDeck` call inside `onScratch` for an active
deck: the deck signal value, the media-element current time and the
recorded last angle. -/
structure ScratchMoveResult where
  deck : DeckState
  currentTime : ℝ
  lastAngle : ℝ

/-- The `processDeck` body of `onScratch` (app.component.ts) for a deck
with an active scratch state: guards on a zero duration, otherwise takes
the normalized angular delta, converts it to a time offset via
`deltaAngle * SCRATCH_SENSITIVITY / (2 * Math.PI)`, clamps the advanced
time into `[0, duration]` and records the new last angle.  The platter
rotation string is visual state only and is omitted; the deck signal is
returned unchanged, as `processDeck` never writes it. -/
def processDeckScratch (deck : DeckState) (duration currentTime : ℝ)
    (lastAngle currentAngle : ℝ) : ScratchMoveResult :=
  if duration = 0 then
    { deck := deck, currentTime := currentTime, lastAngle := lastAngle }
  else
    let deltaAngle := normalizeDeltaAngle (currentAngle - lastAngle)
    let audioTimeChange := deltaAngle * SCRATCH_SENSITIVITY / (2 * Real.pi)
    { deck := deck
      currentTime := max 0 (min duration (currentTime + audioTimeChange))
      lastAngle := currentAngle }

end

/-! ## Helper lemmas on the step mapping -/

theorem seqGet_seqSet_self (m : StepSequence) (k : String) (v : List Bool) :
    seqGet (seqSet m k v) k = some v := by
  induction m with
  | nil => simp [seqSet, seqGet]
  | cons hd tl ih =>
      obtain ⟨k0, v0⟩ := hd
      by_cases h : k0 = k <;> simp [seqSet, seqGet, h, ih]

theorem seqGet_seqSet_ne (m : StepSequence) (k k' : String) (v : List Bool)
    (h : k' ≠ k) : seqGet (seqSet m k v) k' = seqGet m k' := by
  induction m with
  | nil => simp [seqSet, seqGet, Ne.symm h]
  | cons hd tl ih =>
      obtain ⟨k0, v0⟩ := hd
      by_cases h0 : k0 = k
      · subst h0
        simp [seqSet, seqGet, Ne.symm h]
      · by_cases h1 : k0 = k' <;> simp [seqSet, seqGet, h0, h1, h, ih]

theorem seqGet_eq_none_of_not_mem (m : StepSequence) (k : String)
    (h : k ∉ m.map Prod.fst) : seqGet m k = none := by
  induction m with
  | nil => simp [seqGet]
  | cons hd tl ih =>
      obtain ⟨k0, v0⟩ := hd
      simp only [List.map_cons, List.mem_cons] at h
      push_neg at h
      simp [seqGet, Ne.symm h.1, ih h.2]

theorem seqGet_seqDelete_self (m : StepSequence) (k : String)
    (hnodup : (m.map Prod.fst).Nodup) : seqGet (seqDelete m k) k = none := by
  induction m with
  | nil => simp [seqDelete, seqGet]
  | cons hd tl ih =>
      obtain ⟨k0, v0⟩ := hd
      simp only [List.map_cons, List.nodup_cons] at hnodup
      by_cases h : k0 = k
      · subst h
        simp [seqDelete, seqGet, seqGet_eq_none_of_not_mem tl k0 hnodup.1]
      · simp [seqDelete, seqGet, h, ih hnodup.2]

theorem seqGet_isSome_iff_mem (m : StepSequence) (k : String) :
    (seqGet m k).isSome = true ↔ k ∈ m.map Prod.fst := by
  induction m with
  | nil => simp [seqGet]
  | cons hd tl ih =>
      obtain ⟨k0, v0⟩ := hd
      by_cases h : k0 = k
      · subst h
        simp [seqGet]
      · have h1 : seqGet ((k0, v0) :: tl) k = seqGet tl k := by simp [seqGet, h]
        rw [h1, List.map_cons]
        simp only [List.mem_cons]
        rw [ih]
        exact ⟨fun hm => Or.inr hm, fun hm => hm.elim (fun he => absurd he.symm h) id⟩

/-! ## Claim theorems -/

/-- Claim C8: for every 0-100 control value, the gain trim applied to a
deck equals value / 50 (50 is unity, 0 silence, 100 a linear doubling) and
the EQ band gain in dB equals (value - 50) * 12 / 50 (50 is 0 dB, 0 is
-12 dB, 100 is +12 dB). -/
theorem deck_gain_eq_mapping (d : DeckState) :
    (deckAudioParams d).trimGain = d.gain / 50 ∧
    (deckAudioParams d).eqHighGainDb = (d.eqHigh - 50) * (12 / 50) ∧
    (deckAudioParams d).eqMidGainDb = (d.eqMid - 50) * (12 / 50) ∧
    (deckAudioParams d).eqLowGainDb = (d.eqLow - 50) * (12 / 50) ∧
    (deckAudioParams { d with gain := 50 }).trimGain = 1 ∧
    (deckAudioParams { d with gain := 0 }).trimGain = 0 ∧
    (deckAudioParams { d with gain := 100 }).trimGain = 2 ∧
    (deckAudioParams { d with eqLow := 50 }).eqLowGainDb = 0 ∧
    (deckAudioParams { d with eqLow := 0 }).eqLowGainDb = -12 ∧
    (deckAudioParams { d with eqLow := 100 }).eqLowGainDb = 12 := by
  refine ⟨rfl, rfl, rfl, rfl, ?_, ?_, ?_, ?_, ?_, ?_⟩ <;>
    simp [deckAudioParams] <;> norm_num

/-- Claim C2: a sequencer tick, taken while playing, schedules the next
tick after exactly (60 / bpm) / 4 seconds computed from the bpm held in
the state at that tick, and advances the current step index modulo 16
(staying in 0..15 when the index was nonnegative); at bpm 120 the
interval is 0.125 s and at bpm 60 it is 0.25 s. -/
theorem sequencer_step_timing (s : DrumMachineState)
    (hplay : s.isPlaying = true) (hstep : 0 ≤ s.currentStep) :
    scheduleNextStep s =
      some ((60 / s.bpm) / 4, { s with currentStep := (s.currentStep + 1).tmod 16 }) ∧
    0 ≤ (s.currentStep + 1).tmod 16 ∧ (s.currentStep + 1).tmod 16 < 16 ∧
    secondsPerStep 120 = 1 / 8 ∧ secondsPerStep 60 = 1 / 4 := by
  refine ⟨?_, ?_, ?_, by norm_num [secondsPerStep], by norm_num [secondsPerStep]⟩
  · simp [scheduleNextStep, hplay, secondsPerStep]
  · exact Int.tmod_nonneg 16 (by omega)
  · exact Int.tmod_lt_of_pos _ (by omega)

/-- Witness for sequencer_step_timing at a concrete running state. -/
theorem sequencer_step_timing_witness :
    ({ initDrumState with isPlaying := true, currentStep := 0 } :
        DrumMachineState).isPlaying = true ∧
    (0 : Int) ≤ ({ initDrumState with isPlaying := true, currentStep := 0 } :
        DrumMachineState).currentStep ∧
    secondsPerStep 120 = 1 / 8 := by
  refine ⟨rfl, le_refl 0, ?_⟩
  exact (sequencer_step_timing
    { initDrumState with isPlaying := true, currentStep := 0 }
    rfl (le_refl 0)).2.2.2.1

/-- Claim C10: every drum-routing event first unroutes both decks, which
resets the target deck drum-input volume to 0; hence immediately after
routing the drum stream to any deck, that deck drum-input volume is 0 and
the applied drum-input gain parameter is 0, regardless of the volume held
before routing (and the deck track playback is paused). -/
theorem drum_route_starts_silent (s : AppState) (d : DeckId) :
    ((handleDrumRoute (some d) s).deck d).drumInputVolume = 0 ∧
    (handleDrumRoute (some d) s).drumGain d = 0 ∧
    ((handleDrumRoute (some d) s).deck d).isPlaying = false := by
  cases d <;>
    simp [handleDrumRoute, unrouteDrumMachine, AppState.deck, AppState.drumGain]

/-- Claim C3 counterexample: with two pads sharing the key "kickA" and the
step array kickSteps stored under "kickA", reassigning pad 0 to "kickB"
migrates the array to "kickB" and deletes "kickA" even though pad 1 still
uses "kickA"; the claim instead says "kickA" is retained in that case. -/
theorem assign_shared_key_counterexample :
    ((assignSampleToPad sharedKeyPads sharedKeySeq 0 "kickB").1).map Pad.sampleKey =
      ["kickB", "kickA"] ∧
    seqGet (assignSampleToPad sharedKeyPads sharedKeySeq 0 "kickB").2 "kickB" =
      some kickSteps ∧
    seqGet (assignSampleToPad sharedKeyPads sharedKeySeq 0 "kickB").2 "kickA" = none := by
  decide

/-- Claim C3 (amended): reassigning a pad whose current key holds step
array S to a different sample key always results in the new key holding S
and the old key absent from the mapping, even when another pad still uses
the old key (the old key is deleted unconditionally). -/
theorem assignSample_migrates (pads : List Pad) (sequence : StepSequence)
    (padIndex : Nat) (pad : Pad) (S : List Bool) (newKey : String)
    (hpad : pads[padIndex]? = some pad)
    (hnodup : (sequence.map Prod.fst).Nodup)
    (hold : seqGet sequence pad.sampleKey = some S)
    (hne : newKey ≠ pad.sampleKey) :
    seqGet (assignSampleToPad pads sequence padIndex newKey).2 newKey = some S ∧
    seqGet (assignSampleToPad pads sequence padIndex newKey).2 pad.sampleKey = none ∧
    ((assignSampleToPad pads sequence padIndex newKey).1)[padIndex]? =
      some { pad with sampleKey := newKey } := by
  have hlen : padIndex < pads.length := by
    by_contra hc
    push_neg at hc
    rw [List.getElem?_eq_none hc] at hpad
    exact Option.noConfusion hpad
  simp only [assignSampleToPad, hpad, hold]
  refine ⟨?_, ?_, ?_⟩
  · exact seqGet_seqSet_self _ _ _
  · rw [seqGet_seqSet_ne _ _ _ _ (Ne.symm hne)]
    exact seqGet_seqDelete_self _ _ hnodup
  · exact List.getElem?_set_self hlen

/-- Witness for assignSample_migrates on the initial kit: pad 0 holds
"kick808"; reassigning it to "kick909" moves the all-false array to
"kick909" and removes "kick808". -/
theorem assignSample_migrates_witness :
    initDrumState.pads[0]? = some { name := "Kick", key := "1", sampleKey := "kick808" } ∧
    ((initDrumState.sequence.map Prod.fst).Nodup ∧
      seqGet initDrumState.sequence "kick808" = some (List.replicate 16 false)) ∧
    seqGet (assignSampleToPad initDrumState.pads initDrumState.sequence 0 "kick909").2
      "kick909" = some (List.replicate 16 false) ∧
    seqGet (assignSampleToPad initDrumState.pads initDrumState.sequence 0 "kick909").2
      "kick808" = none := by
  refine ⟨by decide, ⟨by decide, by decide⟩, ?_, ?_⟩
  · exact (assignSample_migrates initDrumState.pads initDrumState.sequence 0
      { name := "Kick", key := "1", sampleKey := "kick808" } (List.replicate 16 false)
      "kick909" (by decide) (by decide) (by decide) (by decide)).1
  · exact (assignSample_migrates initDrumState.pads initDrumState.sequence 0
      { name := "Kick", key := "1", sampleKey := "kick808" } (List.replicate 16 false)
      "kick909" (by decide) (by decide) (by decide) (by decide)).2.1

/-- Claim C4: after changeKit with a valid kit name, the key list of the
step mapping is exactly the sample-key list of the new kit pads, every
entry is an all-false 16-step array, the mapping has exactly one entry per
pad of the (new) active pad list, and playback is stopped. -/
theorem changeKit_fresh_sequence (kitName : String) (kit : Kit) (s : DrumMachineState)
    (hfind : kits.find? (fun k => k.name == kitName) = some kit) :
    (changeKit kitName s).sequence.map Prod.fst = kit.pads.map Pad.sampleKey ∧
    (∀ e ∈ (changeKit kitName s).sequence, e.2 = List.replicate 16 false) ∧
    (changeKit kitName s).sequence.length = (changeKit kitName s).pads.length ∧
    (∀ key : String, (seqGet (changeKit kitName s).sequence key).isSome = true ↔
      key ∈ kit.pads.map Pad.sampleKey) ∧
    (changeKit kitName s).isPlaying = false := by
  have hkit : kit = the808Kit := by
    by_cases hname : (the808Kit.name == kitName) = true
    · simp [kits, List.find?, hname] at hfind
      exact hfind.symm
    · simp [kits, List.find?, hname] at hfind
  subst hkit
  have hkeys : (createEmptySequence the808Kit.pads).map Prod.fst =
      the808Kit.pads.map Pad.sampleKey := by decide
  have hvals : ∀ e ∈ createEmptySequence the808Kit.pads,
      e.2 = List.replicate 16 false := by decide
  have hlen : (createEmptySequence the808Kit.pads).length =
      the808Kit.pads.length := by decide
  simp only [changeKit, hfind]
  refine ⟨hkeys, hvals, hlen, ?_, trivial⟩
  intro key
  rw [seqGet_isSome_iff_mem, hkeys]

/-- Witness for changeKit_fresh_sequence at the one kit name of samples.ts. -/
theorem changeKit_fresh_sequence_witness :
    kits.find? (fun k => k.name == "808 Classic") = some the808Kit ∧
    (changeKit "808 Classic" initDrumState).sequence.map Prod.fst =
      the808Kit.pads.map Pad.sampleKey ∧
    (changeKit "808 Classic" initDrumState).isPlaying = false := by
  have hfind : kits.find? (fun k => k.name == "808 Classic") = some the808Kit := by
    decide
  exact ⟨hfind,
    (changeKit_fresh_sequence "808 Classic" the808Kit initDrumState hfind).1,
    (changeKit_fresh_sequence "808 Classic" the808Kit initDrumState hfind).2.2.2.2⟩

/-- Helper invariant: in every reachable state at least one of the two
drum-routed flags is off. -/
theorem routing_flags_exclusive (s : AppState) (h : Reachable s) :
    s.isDrumRoutedA = false ∨ s.isDrumRoutedB = false := by
  induction h with
  | init => exact Or.inl rfl
  | route e h ih =>
      cases e with
      | none => exact Or.inl (by simp [handleDrumRoute])
      | some d =>
          cases d with
          | A => exact Or.inr (by simp [handleDrumRoute, unrouteDrumMachine])
          | B => exact Or.inl (by simp [handleDrumRoute, unrouteDrumMachine])
  | unroute d h ih =>
      cases d with
      | A => exact Or.inl (by simp [unrouteDrumMachine])
      | B => exact Or.inr (by simp [unrouteDrumMachine])
  | frame h hA hB ih =>
      rw [hA, hB]
      exact ih

/-- Claim C5: drum routing is mutually exclusive between decks.  In every
reachable state the two decks are never both routed; routing the drum tap
to deck A while deck B is routed leaves deck B unrouted with its tap
reconnected to the silent dummy source at zero gain and deck A routed with
its own track playback paused; and routing into any deck pauses that deck
track playback. -/
theorem drum_routing_mutual_exclusion (s : AppState) (hreach : Reachable s) :
    ¬(s.isDrumRoutedA = true ∧ s.isDrumRoutedB = true) ∧
    (s.isDrumRoutedB = true →
      (handleDrumRoute (some DeckId.A) s).isDrumRoutedB = false ∧
      (handleDrumRoute (some DeckId.A) s).drumSourceB = DrumSource.silentDummy ∧
      (handleDrumRoute (some DeckId.A) s).drumInputGainB = 0 ∧
      (handleDrumRoute (some DeckId.A) s).isDrumRoutedA = true ∧
      (handleDrumRoute (some DeckId.A) s).deckA.isPlaying = false) ∧
    (∀ d : DeckId, ((handleDrumRoute (some d) s).deck d).isPlaying = false) := by
  refine ⟨?_, ?_, ?_⟩
  · rcases routing_flags_exclusive s hreach with h | h <;> simp [h]
  · intro _
    refine ⟨?_, ?_, ?_, ?_, ?_⟩ <;> simp [handleDrumRoute, unrouteDrumMachine]
  · intro d
    cases d <;> simp [handleDrumRoute, unrouteDrumMachine, AppState.deck]

/-- Witness for drum_routing_mutual_exclusion at the reachable state
obtained by routing the drum stream to deck B from the initial state. -/
theorem drum_routing_mutual_exclusion_witness :
    (handleDrumRoute (some DeckId.B) initAppState).isDrumRoutedB = true ∧
    (handleDrumRoute (some DeckId.A)
      (handleDrumRoute (some DeckId.B) initAppState)).isDrumRoutedB = false ∧
    (handleDrumRoute (some DeckId.A)
      (handleDrumRoute (some DeckId.B) initAppState)).isDrumRoutedA = true ∧
    ¬((handleDrumRoute (some DeckId.B) initAppState).isDrumRoutedA = true ∧
      (handleDrumRoute (some DeckId.B) initAppState).isDrumRoutedB = true) := by
  have h := drum_routing_mutual_exclusion (handleDrumRoute (some DeckId.B) initAppState)
    (Reachable.route (some DeckId.B) Reachable.init)
  have hB : (handleDrumRoute (some DeckId.B) initAppState).isDrumRoutedB = true := by
    simp [handleDrumRoute, unrouteDrumMachine]
  exact ⟨hB, (h.2.1 hB).1, (h.2.1 hB).2.2.2.1, h.1⟩

/-- Claim C9: when onEnded fires for a deck whose loop flag is off and the
player-mode advance condition does not hold (the deck is not the
player-mode primary deck A with a next playlist track), the deck progress
is reset to 0, isPlaying becomes false and the track, playlist and track
index are unchanged; when the advance condition holds, onEnded instead
advances the playlist index to the next track. -/
theorem onEnded_loop_off (s : AppState) (deckId : DeckId)
    (hloop : (s.deck deckId).loop = false) :
    (¬(s.mainViewMode = MainViewMode.player ∧ deckId = DeckId.A ∧
        0 < s.playlist.length ∧
        s.currentTrackIndex < (s.playlist.length : Int) - 1) →
      ((onEnded deckId s).deck deckId).progress = 0 ∧
      ((onEnded deckId s).deck deckId).isPlaying = false ∧
      ((onEnded deckId s).deck deckId).track = (s.deck deckId).track ∧
      (onEnded deckId s).playlist = s.playlist ∧
      (onEnded deckId s).currentTrackIndex = s.currentTrackIndex) ∧
    ((s.mainViewMode = MainViewMode.player ∧ deckId = DeckId.A ∧
        0 < s.playlist.length ∧
        s.currentTrackIndex < (s.playlist.length : Int) - 1) →
      onEnded deckId s = playNext s ∧
      (-1 ≤ s.currentTrackIndex →
        (onEnded deckId s).currentTrackIndex = s.currentTrackIndex + 1)) := by
  constructor
  · intro hneg
    have hrw : onEnded deckId s =
        s.setDeck deckId { s.deck deckId with isPlaying := false, progress := 0 } := by
      simp only [onEnded, if_neg hneg]
      simp [hloop]
    rw [hrw]
    cases deckId <;> simp [AppState.setDeck, AppState.deck]
  · intro hpos
    have h1 : onEnded deckId s = playNext s := by
      simp only [onEnded, if_pos hpos]
    refine ⟨h1, fun hge => ?_⟩
    have hlen : 0 < (s.playlist.length : Int) := by exact_mod_cast hpos.2.2.1
    have hlt : s.currentTrackIndex + 1 < (s.playlist.length : Int) := by
      linarith [hpos.2.2.2]
    have hge' : 0 ≤ s.currentTrackIndex + 1 := by linarith
    rw [h1]
    simp only [playNext]
    rw [Int.tmod_eq_emod hge' (le_of_lt hlen), Int.emod_eq_of_lt hge' hlt]

/-- Witness for onEnded_loop_off: a stop scenario (deck B, initial state)
and an advance scenario (deck A in player mode with a two-track playlist
at index 0, which advances to index 1). -/
theorem onEnded_loop_off_witness :
    (initAppState.deck DeckId.B).loop = false ∧
    ((onEnded DeckId.B initAppState).deck DeckId.B).progress = 0 ∧
    ((onEnded DeckId.B initAppState).deck DeckId.B).isPlaying = false ∧
    ((onEnded DeckId.B initAppState).deck DeckId.B).track =
      (initAppState.deck DeckId.B).track ∧
    (onEnded DeckId.A { initAppState with
      playlist := [demoTrack, demoTrack], currentTrackIndex := 0 }).currentTrackIndex =
      0 + 1 := by
  have hstop := (onEnded_loop_off initAppState DeckId.B rfl).1 (by decide)
  have hadv := (onEnded_loop_off
    { initAppState with playlist := [demoTrack, demoTrack], currentTrackIndex := 0 }
    DeckId.A rfl).2 ⟨rfl, rfl, by decide, by decide⟩
  exact ⟨rfl, hstop.1, hstop.2.1, hstop.2.2.1, hadv.2 (by decide)⟩

/-- Claim C1: with x = (c + 1) / 2, the gain applied to deck A is
cos(x * pi / 2) and the gain applied to deck B is cos((1 - x) * pi / 2);
consequently gainA(c)^2 + gainB(c)^2 = 1 for every c, gainA(-1) = 1,
gainB(-1) = 0, gainA(1) = 0, gainB(1) = 1 and
gainA(0) = gainB(0) = cos(pi / 4). -/
theorem crossfade_equal_power (c : ℝ) :
    gainA c = Real.cos ((c + 1) / 2 * (Real.pi / 2)) ∧
    gainB c = Real.cos ((1 - (c + 1) / 2) * (Real.pi / 2)) ∧
    gainA c ^ 2 + gainB c ^ 2 = 1 ∧
    gainA (-1) = 1 ∧ gainB (-1) = 0 ∧ gainA 1 = 0 ∧ gainB 1 = 1 ∧
    gainA 0 = Real.cos (Real.pi / 4) ∧ gainB 0 = Real.cos (Real.pi / 4) := by
  have h05 : (0.5 : ℝ) = 1 / 2 := by norm_num
  have hA : ∀ x : ℝ, gainA x = Real.cos ((x + 1) / 2 * (Real.pi / 2)) := by
    intro x
    unfold gainA
    rw [h05]
    congr 1
    ring
  have hB : ∀ x : ℝ, gainB x = Real.cos ((1 - (x + 1) / 2) * (Real.pi / 2)) := by
    intro x
    unfold gainB
    rw [h05]
    congr 1
    ring
  have hpow : ∀ x : ℝ,
      Real.cos (x * (Real.pi / 2)) ^ 2 + Real.cos ((1 - x) * (Real.pi / 2)) ^ 2 = 1 := by
    intro x
    have h1 : (1 - x) * (Real.pi / 2) = Real.pi / 2 - x * (Real.pi / 2) := by ring
    rw [h1, Real.cos_pi_div_two_sub, add_comm]
    exact Real.sin_sq_add_cos_sq _
  refine ⟨hA c, hB c, ?_, ?_, ?_, ?_, ?_, ?_, ?_⟩
  · rw [hA c, hB c]
    exact hpow ((c + 1) / 2)
  · rw [hA (-1)]
    have h1 : ((-1 : ℝ) + 1) / 2 * (Real.pi / 2) = 0 := by ring
    rw [h1, Real.cos_zero]
  · rw [hB (-1)]
    have h1 : (1 - ((-1 : ℝ) + 1) / 2) * (Real.pi / 2) = Real.pi / 2 := by ring
    rw [h1, Real.cos_pi_div_two]
  · rw [hA 1]
    have h1 : ((1 : ℝ) + 1) / 2 * (Real.pi / 2) = Real.pi / 2 := by ring
    rw [h1, Real.cos_pi_div_two]
  · rw [hB 1]
    have h1 : (1 - ((1 : ℝ) + 1) / 2) * (Real.pi / 2) = 0 := by ring
    rw [h1, Real.cos_zero]
  · rw [hA 0]
    congr 1
    ring
  · rw [hB 0]
    congr 1
    ring

/-- Claim C7: the filter control mapping and its inverse round-trip
exactly (in real arithmetic) on [0, 1], with the endpoints mapping to
20 Hz and 20000 Hz. -/
theorem filter_frequency_round_trip (v : ℝ) (h0 : 0 ≤ v) (h1 : v ≤ 1) :
    getNormalizedFilterValue (normalizedToFrequency v) = v ∧
    normalizedToFrequency 0 = 20 ∧ normalizedToFrequency 1 = 20000 := by
  have hbase : ((20000 : ℝ) / 20) = 1000 := by norm_num
  have h2 : normalizedToFrequency 0 = 20 := by
    unfold normalizedToFrequency
    rw [hbase, Real.rpow_zero]
    norm_num
  have h3 : normalizedToFrequency 1 = 20000 := by
    unfold normalizedToFrequency
    rw [hbase, Real.rpow_one]
    norm_num
  refine ⟨?_, h2, h3⟩
  rcases eq_or_lt_of_le h0 with h0e | h0l
  · rw [← h0e] at *
    rw [h2]
    norm_num [getNormalizedFilterValue]
  · rcases eq_or_lt_of_le h1 with h1e | h1l
    · subst h1e
      rw [h3]
      norm_num [getNormalizedFilterValue]
    · have hror : normalizedToFrequency v = 20 * (1000 : ℝ) ^ v := by
        unfold normalizedToFrequency
        rw [hbase]
      have hpos1000 : (0 : ℝ) < 1000 := by norm_num
      have hgt1 : 1 < (1000 : ℝ) ^ v := by
        rw [Real.one_lt_rpow_iff_of_pos hpos1000]
        exact Or.inl ⟨by norm_num, h0l⟩
      have hltpow : (1000 : ℝ) ^ v < 1000 := by
        have h := (Real.rpow_lt_rpow_left_iff
          (x := (1000 : ℝ)) (by norm_num : (1 : ℝ) < 1000)).mpr h1l
        rwa [Real.rpow_one] at h
      have hfgt : 20 < normalizedToFrequency v := by
        rw [hror]
        nlinarith
      have hflt : normalizedToFrequency v < 20000 := by
        rw [hror]
        nlinarith
      unfold getNormalizedFilterValue
      rw [if_neg (not_le.mpr hfgt), if_neg (not_le.mpr hflt), hror]
      have hlog : Real.log (20 * (1000 : ℝ) ^ v) =
          Real.log 20 + v * Real.log 1000 := by
        rw [Real.log_mul (by norm_num) (ne_of_gt (Real.rpow_pos_of_pos hpos1000 v)),
          Real.log_rpow hpos1000]
      have hlog2 : Real.log 20000 = Real.log 20 + Real.log 1000 := by
        rw [show (20000 : ℝ) = 20 * 1000 by norm_num,
          Real.log_mul (by norm_num) (by norm_num)]
      rw [hlog, hlog2]
      have hln : Real.log 1000 ≠ 0 := ne_of_gt (Real.log_pos (by norm_num))
      have h4 : Real.log 20 + v * Real.log 1000 - Real.log 20 = v * Real.log 1000 := by
        ring
      have h5 : Real.log 20 + Real.log 1000 - Real.log 20 = Real.log 1000 := by
        ring
      rw [h4, h5, mul_div_assoc, div_self hln, mul_one]

/-- Witness for filter_frequency_round_trip at the mid control value. -/
theorem filter_frequency_round_trip_witness :
    (0 : ℝ) ≤ 1 / 2 ∧ (1 / 2 : ℝ) ≤ 1 ∧
    getNormalizedFilterValue (normalizedToFrequency (1 / 2)) = 1 / 2 := by
  exact ⟨by norm_num, by norm_num,
    (filter_frequency_round_trip (1 / 2) (by norm_num) (by norm_num)).1⟩

/-- Claim C6 counterexample: a move from angle pi/2 to angle -pi/2 (both
legal atan2 outputs) yields the raw delta -pi, which the normalization
leaves at -pi, a value outside the interval (−pi, pi] stated by the claim. -/
theorem scratch_normalization_counterexample :
    normalizeDeltaAngle (-(Real.pi / 2) - Real.pi / 2) = -Real.pi ∧
    -Real.pi ∉ Set.Ioc (-Real.pi) Real.pi := by
  have hpi := Real.pi_pos
  constructor
  · have harg : -(Real.pi / 2) - Real.pi / 2 = -Real.pi := by ring
    rw [harg]
    unfold normalizeDeltaAngle
    rw [if_neg (by linarith), if_neg (lt_irrefl _)]
  · simp [Set.mem_Ioc]

/-- Claim C6 (amended): for a move event on an active deck with positive
duration, the normalized angular delta lies in the closed interval
[−pi, pi] (the boundary case −pi is kept as −pi, not mapped into
(−pi, pi]), the playback position becomes the previous position advanced
by deltaAngle * 2.5 / (2 pi) seconds and clamped to [0, duration], a
delta of +pi/2 yields an offset of exactly 2.5 / 4 seconds, and no deck
parameter other than the transport position is altered. -/
theorem scratch_move_spec (deck : DeckState) (duration t lastAngle currentAngle : ℝ)
    (hdur : 0 < duration)
    (hlast : lastAngle ∈ Set.Icc (-Real.pi) Real.pi)
    (hcur : currentAngle ∈ Set.Icc (-Real.pi) Real.pi) :
    (processDeckScratch deck duration t lastAngle currentAngle).deck = deck ∧
    (processDeckScratch deck duration t lastAngle currentAngle).lastAngle =
      currentAngle ∧
    normalizeDeltaAngle (currentAngle - lastAngle) ∈ Set.Icc (-Real.pi) Real.pi ∧
    (processDeckScratch deck duration t lastAngle currentAngle).currentTime =
      max 0 (min duration
        (t + normalizeDeltaAngle (currentAngle - lastAngle) * SCRATCH_SENSITIVITY /
          (2 * Real.pi))) ∧
    (processDeckScratch deck duration t lastAngle currentAngle).currentTime ∈
      Set.Icc 0 duration ∧
    (currentAngle - lastAngle = Real.pi / 2 →
      normalizeDeltaAngle (currentAngle - lastAngle) * SCRATCH_SENSITIVITY /
        (2 * Real.pi) = 2.5 / 4) := by
  have hpi := Real.pi_pos
  obtain ⟨hl1, hl2⟩ := hlast
  obtain ⟨hc1, hc2⟩ := hcur
  have hne : duration ≠ 0 := ne_of_gt hdur
  refine ⟨?_, ?_, ?_, ?_, ?_, ?_⟩
  · simp [processDeckScratch, hne]
  · simp [processDeckScratch, hne]
  · unfold normalizeDeltaAngle
    split_ifs with hgt hlt
    · constructor <;> linarith
    · constructor <;> linarith
    · constructor <;> linarith
  · simp [processDeckScratch, hne]
  · simp only [processDeckScratch, if_neg hne]
    constructor
    · exact le_max_left _ _
    · exact max_le (le_of_lt hdur) (min_le_left _ _)
  · intro h
    rw [h]
    have hnorm : normalizeDeltaAngle (Real.pi / 2) = Real.pi / 2 := by
      unfold normalizeDeltaAngle
      rw [if_neg (by linarith), if_neg (by linarith)]
    rw [hnorm]
    unfold SCRATCH_SENSITIVITY
    have h2pi : (2 : ℝ) * Real.pi ≠ 0 := by positivity
    field_simp
    ring

/-- Witness for scratch_move_spec: duration 1, start time 0, a move from
angle 0 to angle pi/2, giving the 2.5 / 4 second offset. -/
theorem scratch_move_spec_witness :
    (0 : ℝ) < 1 ∧ (0 : ℝ) ∈ Set.Icc (-Real.pi) Real.pi ∧
    Real.pi / 2 ∈ Set.Icc (-Real.pi) Real.pi ∧
    (processDeckScratch initialDeckState 1 0 0 (Real.pi / 2)).deck =
      initialDeckState ∧
    normalizeDeltaAngle (Real.pi / 2 - 0) * SCRATCH_SENSITIVITY / (2 * Real.pi) =
      2.5 / 4 := by
  have hpi := Real.pi_pos
  have h0m : (0 : ℝ) ∈ Set.Icc (-Real.pi) Real.pi := by
    constructor <;> linarith
  have hhm : Real.pi / 2 ∈ Set.Icc (-Real.pi) Real.pi := by
    constructor <;> linarith
  have h := scratch_move_spec initialDeckState 1 0 0 (Real.pi / 2)
    (by norm_num) h0m hhm
  exact ⟨by norm_num, h0m, hhm, h.1, h.2.2.2.2.2 (by ring)⟩
